import Mathlib

/-!
Verification of the Helix intelligent command pipeline (github.com/Nibir1/Helix)
against its natural-language specification.

The Go sources are shallowly embedded: Go strings become `List Char`
(`GoStr`), pure functions become Lean functions, side effects (spawning a
subprocess, prompting the user, writing files) become explicit data
(an effects record, a list of filesystem operations), and the unspecified
iteration order of Go maps becomes an explicit `order` parameter.
Floating-point scores (float32 in the source) are modelled as exact
rationals; the natural logarithm used by the TF-IDF scoring is kept as an
abstract parameter `logf`, since none of the verified properties depend on
its values.  Character case conversion is modelled for the ASCII range,
which covers every string the verified properties mention.
-/

/-- A Go string, modelled as its list of characters. -/
abbrev GoStr := List Char

/-- Build a `GoStr` from a Lean string literal. -/
def str (s : String) : GoStr := s.toList

/-- Single-quote character (spelled via its code point). -/
def sqC : Char := Char.ofNat 39

/-- Double-quote character. -/
def dqC : Char := Char.ofNat 34

/-- Backslash character. -/
def bslC : Char := Char.ofNat 92

/-- Newline character. -/
def nlC : Char := Char.ofNat 10

/-- Star character. -/
def starC : Char := '*'

/-- Dot character. -/
def dotC : Char := '.'

/-- `unicode.IsSpace` restricted to the Latin-1 range: the white-space set
used by Go's `strings.TrimSpace` and `strings.Fields`. -/
def isSpaceB (c : Char) : Bool :=
  c.toNat = 32 || c.toNat = 9 || c.toNat = 10 || c.toNat = 11 ||
  c.toNat = 12 || c.toNat = 13 || c.toNat = 133 || c.toNat = 160

/-- The character class `\s` of Go's `regexp` package: `[\t\n\f\r ]`. -/
def reSpace (c : Char) : Bool :=
  c.toNat = 9 || c.toNat = 10 || c.toNat = 12 || c.toNat = 13 || c.toNat = 32

/-- ASCII lower-casing of a character, as `strings.ToLower` acts on the
ASCII range (non-ASCII characters are left unchanged by the model). -/
def charToLower (c : Char) : Char :=
  match c with
  | 'A' => 'a' | 'B' => 'b' | 'C' => 'c' | 'D' => 'd' | 'E' => 'e'
  | 'F' => 'f' | 'G' => 'g' | 'H' => 'h' | 'I' => 'i' | 'J' => 'j'
  | 'K' => 'k' | 'L' => 'l' | 'M' => 'm' | 'N' => 'n' | 'O' => 'o'
  | 'P' => 'p' | 'Q' => 'q' | 'R' => 'r' | 'S' => 's' | 'T' => 't'
  | 'U' => 'u' | 'V' => 'v' | 'W' => 'w' | 'X' => 'x' | 'Y' => 'y'
  | 'Z' => 'z' | c => c

/-- `strings.ToLower` (ASCII fragment). -/
def goToLower (s : GoStr) : GoStr := s.map charToLower

/-- Boolean prefix test (`strings.HasPrefix pat s` reads `isPrefixB pat s`). -/
def isPrefixB : GoStr → GoStr → Bool
  | [], _ => true
  | _ :: _, [] => false
  | p :: ps, c :: cs => (p == c) && isPrefixB ps cs

/-- Boolean substring test: `strings.Contains s pat` is `isInfixB pat s`. -/
def isInfixB (p : GoStr) : GoStr → Bool
  | [] => isPrefixB p []
  | c :: cs => isPrefixB p (c :: cs) || isInfixB p cs

/-- `strings.Contains`. -/
def goContains (s pat : GoStr) : Bool := isInfixB pat s

/-- `utils.ContainsAny`: does `s` contain any of the substrings? -/
def containsAny (s : GoStr) (pats : List GoStr) : Bool :=
  pats.any (fun p => isInfixB p s)

/-- `strings.HasSuffix`. -/
def hasSuffixB (s suf : GoStr) : Bool := isPrefixB suf.reverse s.reverse

/-- `strings.TrimSuffix` (removes one copy of the suffix when present). -/
def trimSuffixGo (s suf : GoStr) : GoStr :=
  if hasSuffixB s suf then s.take (s.length - suf.length) else s

/-- `strings.TrimPrefix`. -/
def trimPrefixGo (s pre : GoStr) : GoStr :=
  if isPrefixB pre s then s.drop pre.length else s

/-- Drop trailing characters satisfying `p`. -/
def dropTrailing (p : Char → Bool) (s : GoStr) : GoStr :=
  (s.reverse.dropWhile p).reverse

/-- `strings.TrimSpace`. -/
def goTrimSpace (s : GoStr) : GoStr :=
  dropTrailing isSpaceB (s.dropWhile isSpaceB)

/-- `strings.Trim s cutset`: remove leading and trailing characters that
occur in `cutset`. -/
def goTrimCutset (s cutset : GoStr) : GoStr :=
  dropTrailing (fun c => cutset.contains c) (s.dropWhile (fun c => cutset.contains c))

/-- Helper for `goFields`: accumulate the current word (reversed). -/
def fieldsAux : GoStr → GoStr → List GoStr
  | [], acc => if acc.isEmpty then [] else [acc.reverse]
  | c :: rest, acc =>
      if isSpaceB c then
        if acc.isEmpty then fieldsAux rest [] else acc.reverse :: fieldsAux rest []
      else fieldsAux rest (c :: acc)

/-- `strings.Fields`: split around runs of white space. -/
def goFields (s : GoStr) : List GoStr := fieldsAux s []

/-- Number of occurrences of a single character (`strings.Count` with a
one-character pattern). -/
def countChar (c : Char) (s : GoStr) : Nat := s.count c

/-- Split on a separator character (`strings.Split`). -/
def splitOnAux (sep : Char) : GoStr → GoStr → List GoStr
  | [], acc => [acc.reverse]
  | c :: rest, acc =>
      if c == sep then acc.reverse :: splitOnAux sep rest []
      else splitOnAux sep rest (c :: acc)

/-- `strings.Split s (string sep)` for a one-character separator. -/
def splitOnChar (sep : Char) (s : GoStr) : List GoStr := splitOnAux sep s []

/-- Intercalate a separator string between parts (`strings.Join`). -/
def joinWith (sep : GoStr) : List GoStr → GoStr
  | [] => []
  | [x] => x
  | x :: y :: rest => x ++ sep ++ joinWith sep (y :: rest)

/-- `strings.Replace s old new 1`: replace the first occurrence of `old`.
The source never calls it with an empty `old`; an empty `old` is returned
unchanged here. -/
def replaceOnce : GoStr → GoStr → GoStr → GoStr
  | [], _, _ => []
  | c :: cs, old, new =>
      if old.isEmpty then c :: cs
      else if isPrefixB old (c :: cs) then new ++ (c :: cs).drop old.length
      else c :: replaceOnce cs old new

/-- Fuel-driven worker for `replaceAllGo`; the fuel bounds the number of
scan steps (each step consumes at least one character). -/
def replaceAllFuel : Nat → GoStr → GoStr → GoStr → GoStr
  | 0, s, _, _ => s
  | _ + 1, [], _, _ => []
  | n + 1, c :: cs, old, new =>
      if old.isEmpty then c :: cs
      else if isPrefixB old (c :: cs) then
        new ++ replaceAllFuel n ((c :: cs).drop old.length) old new
      else c :: replaceAllFuel n cs old new

/-- `strings.ReplaceAll`; scanning resumes after each replacement. -/
def replaceAllGo (s old new : GoStr) : GoStr := replaceAllFuel s.length s old new

/-- Decimal rendering of a natural number (for `fmt.Sprintf` with a
`%d` verb). -/
def natToStr (n : Nat) : GoStr := Nat.toDigits 10 n

/-! ## A small regular-expression engine (Brzozowski derivatives)

Used to embed the `regexp.MustCompile(...).MatchString` calls of the
source.  `searchRE` implements unanchored matching, as `MatchString`
does. -/

/-- Regular expressions over characters; `cls` is a character class. -/
inductive RE where
  | emp : RE
  | eps : RE
  | cls : (Char → Bool) → RE
  | seq : RE → RE → RE
  | alt : RE → RE → RE
  | star : RE → RE

/-- Does the expression accept the empty string? -/
def nullable : RE → Bool
  | .emp => false
  | .eps => true
  | .cls _ => false
  | .seq a b => nullable a && nullable b
  | .alt a b => nullable a || nullable b
  | .star _ => true

/-- Brzozowski derivative with respect to one character. -/
def derivRE (r : RE) (c : Char) : RE :=
  match r with
  | .emp => .emp
  | .eps => .emp
  | .cls p => if p c then .eps else .emp
  | .seq a b =>
      if nullable a then .alt (.seq (derivRE a c) b) (derivRE b c)
      else .seq (derivRE a c) b
  | .alt a b => .alt (derivRE a c) (derivRE b c)
  | .star a => .seq (derivRE a c) (.star a)

/-- Does `r` match some prefix of the string? -/
def matchesPrefixRE (r : RE) : GoStr → Bool
  | [] => nullable r
  | c :: cs => nullable r || matchesPrefixRE (derivRE r c) cs

/-- Unanchored search: does `r` match some substring of the string? -/
def searchRE (r : RE) : GoStr → Bool
  | [] => nullable r
  | c :: cs => matchesPrefixRE r (c :: cs) || searchRE r cs

/-- Literal character. -/
def chC (c : Char) : RE := .cls (fun x => x == c)

/-- Case-insensitive literal character (for patterns under `(?i)`). -/
def chCI (c : Char) : RE := .cls (fun x => charToLower x == charToLower c)

/-- Literal string. -/
def strRE (s : GoStr) : RE := s.foldr (fun c r => .seq (chC c) r) .eps

/-- Case-insensitive literal string. -/
def strREci (s : GoStr) : RE := s.foldr (fun c r => .seq (chCI c) r) .eps

/-- One or more repetitions. -/
def plusRE (r : RE) : RE := .seq r (.star r)

/-- Zero or one repetition. -/
def optRE (r : RE) : RE := .alt r .eps

/-- The class `.` of Go regexps: any character but newline. -/
def dotRE : RE := .cls (fun c => !(c == nlC))

/-- The class `\s`. -/
def spaceRE : RE := .cls reSpace

/-- The class `\S`. -/
def nonSpaceRE : RE := .cls (fun c => !reSpace c)

/-- Sequence of several expressions. -/
def seqList : List RE → RE
  | [] => .eps
  | [r] => r
  | r :: rest => .seq r (seqList rest)

/-! ## Safety validator of `internal/utils` (`utils.ValidateCommand`)

Source: `internal/utils/utils.go` (the same function also appears in the
legacy flat package).  The four compiled patterns are transcribed below;
note that the fourth is written in a Go raw string, so its `\\` matches a
literal backslash followed by `s*`, i.e. zero or more letters `s`. -/

/-- `(?i)rm\s+-rf\s+/\s*`. -/
def reRmRfSlash : RE :=
  seqList [strREci (str "rm"), plusRE spaceRE, strREci (str "-rf"),
           plusRE spaceRE, chC '/', .star spaceRE]

/-- `(?i)format\s+[c-z]:`. -/
def reFormatDrive : RE :=
  seqList [strREci (str "format"), plusRE spaceRE,
           .cls (fun c => 99 ≤ (charToLower c).toNat && (charToLower c).toNat ≤ 122),
           chC ':']

/-- `(?i)dd\s+if=/dev/zero`. -/
def reDdZero : RE :=
  seqList [strREci (str "dd"), plusRE spaceRE, strREci (str "if=/dev/zero")]

/-- `>:\\s*/dev/sd[a-z]` (Go raw string): a literal `>:`, a literal
backslash, zero or more letters `s`, then `/dev/sd` and a letter. -/
def reDevSdActual : RE :=
  seqList [chC '>', chC ':', chC bslC, .star (chC 's'),
           strRE (str "/dev/sd"),
           .cls (fun c => 97 ≤ c.toNat && c.toNat ≤ 122)]

/-- `>.*/dev/sd[a-z]`: the pattern the specification ascribes to the
validator. -/
def reDevSdClaimed : RE :=
  seqList [chC '>', .star dotRE, strRE (str "/dev/sd"),
           .cls (fun c => 97 ≤ c.toNat && c.toNat ≤ 122)]

/-- Errors returned by `utils.ValidateCommand`. -/
inductive UtilsErr where
  | emptyCommand : UtilsErr
  | dangerousPattern : UtilsErr
  deriving DecidableEq

/-- `utils.ValidateCommand`: reject empty commands and commands matching
one of the four "obviously malicious" patterns. -/
def utilsValidateCommand (command : GoStr) : Except UtilsErr Unit :=
  if goTrimSpace command = [] then .error .emptyCommand
  else if searchRE reRmRfSlash command || searchRE reFormatDrive command ||
          searchRE reDdZero command || searchRE reDevSdActual command then
    .error .dangerousPattern
  else .ok ()

/-! ## Command executor of `internal/commands` (`commands.ExecuteCommand`)

Source: `internal/commands/execute.go`.  The subprocess spawn, the
interactive confirmation and the child exit status are effects; they are
modelled by an `ExecEffects` record (the answer the user would give, and
whether the spawned command would succeed) and by the `spawned` flag of
the outcome, which records whether a host shell process was started. -/

/-- The blocklist `dangerousPatterns` of `internal/commands`. -/
def dangerousPatterns : List GoStr :=
  [str "rm -rf /", str "rm -rf /*", str "format c:", str "mkfs",
   str "fdisk", str "dd if=/dev/zero", str "> /dev/sda",
   str "chmod -R 777 /", str "mv / /dev/null", str "> /etc/passwd",
   str ":()\x7b :|:& \x7d;:", str "fork bomb", str "debugfs",
   str "mkswap", str "swapoff", str "> /boot"]

/-- `commands.ExecuteConfig`. -/
structure ExecuteConfig where
  dryRun : Bool
  autoConfirm : Bool
  safeMode : Bool
  deriving DecidableEq

/-- `commands.DefaultExecuteConfig`. -/
def DefaultExecuteConfig : ExecuteConfig := ⟨false, false, true⟩

/-- `commands.IsCommandSafe`: false exactly when the lower-cased command
contains a blocklist substring (the `rm -rf`/`home` special case in the
source also returns `true`). -/
def IsCommandSafe (command : GoStr) : Bool :=
  let cmdLower := goToLower command
  if containsAny cmdLower dangerousPatterns then false
  else if goContains cmdLower (str "rm -rf") && goContains cmdLower (str "home") then true
  else true

/-- `commands.isPotentiallyDangerous`. -/
def isPotentiallyDangerous (command : GoStr) : Bool :=
  let cmdLower := goToLower command
  containsAny cmdLower
    [str "rm -rf", str "chmod", str "chown", str "mv ", str "dd ",
     str "format", str "fdisk", str "mkfs", str "> ", str ">> ",
     str "curl | sh", str "wget | sh"]

/-- Result of `commands.ExecuteCommand`. -/
inductive ExecStatus where
  | ok | errEmpty | errBlocked | errUnbalanced | errCancelled | errRunFailed
  deriving DecidableEq

/-- The outcome records the returned status and whether a host shell
subprocess was spawned. -/
structure ExecOutcome where
  status : ExecStatus
  spawned : Bool
  deriving DecidableEq

/-- External effects: the user's answer to `AskForConfirmation` and
whether the spawned command would exit without error. -/
structure ExecEffects where
  confirmAnswer : Bool
  runSucceeds : Bool

/-- `commands.ExecuteCommand` (internal/commands).  The `config.DryRun`
flag only switches the printed label between "Dry Run:" and "Executing:";
there is no early return for it, so the shell switch at the end is always
reached and a subprocess is spawned.  `envShell` is `env.Shell`: every
branch of the switch on it (powershell, cmd, bash/zsh/fish, default)
constructs and runs a host-shell command, so the outcome does not depend
on it. -/
def commandsExecuteCommand (command0 : GoStr) (config : ExecuteConfig)
    (_envShell : GoStr) (eff : ExecEffects) : ExecOutcome :=
  let command := goTrimSpace command0
  if command = [] then ⟨.errEmpty, false⟩
  else if config.safeMode && !(IsCommandSafe command) then ⟨.errBlocked, false⟩
  else
    let s := countChar sqC command
    let d := countChar dqC command
    if (decide (s % 2 ≠ 0) && decide (1 < s)) || (decide (d % 2 ≠ 0) && decide (1 < d)) then
      ⟨.errUnbalanced, false⟩
    else
      -- the source trims and re-checks a second time; kept for fidelity
      let command := goTrimSpace command
      if command = [] then ⟨.errEmpty, false⟩
      else if config.safeMode && !(IsCommandSafe command) then ⟨.errBlocked, false⟩
      else if !config.autoConfirm && isPotentiallyDangerous command && !eff.confirmAnswer then
        ⟨.errCancelled, false⟩
      else if eff.runSucceeds then ⟨.ok, true⟩ else ⟨.errRunFailed, true⟩

/-! ## The `path/filepath` fragment used by the sandbox (Unix rules)

`filepath.Clean`, `filepath.Join` and `filepath.Rel` for slash-separated
paths, transcribed from the Go standard library at the level of path
components. -/

/-- One step of `filepath.Clean`: process one path component against the
output stack (held in reverse).  `..` pops a poppable component, is
dropped at the root of a rooted path, and is kept otherwise. -/
def cleanStep (rooted : Bool) (out : List GoStr) (comp : GoStr) : List GoStr :=
  if comp.isEmpty || comp = [dotC] then out
  else if comp = [dotC, dotC] then
    match out with
    | c :: rest => if c = [dotC, dotC] then comp :: c :: rest else rest
    | [] => if rooted then [] else [comp]
  else comp :: out

/-- `filepath.Clean` (Unix). -/
def goClean (p : GoStr) : GoStr :=
  if p.isEmpty then [dotC]
  else
    let rooted := p.head? = some '/'
    let comps := splitOnChar '/' p
    let out := (comps.foldl (cleanStep rooted) []).reverse
    let body := joinWith ['/'] out
    if rooted then '/' :: body
    else if body.isEmpty then [dotC] else body

/-- `filepath.IsAbs` (Unix). -/
def goIsAbs (p : GoStr) : Bool := p.head? = some '/'

/-- `filepath.Join` of two elements: empty elements are skipped, the rest
are joined with a slash, and the result is cleaned. -/
def goJoin (a b : GoStr) : GoStr :=
  if a.isEmpty then (if b.isEmpty then [] else goClean b)
  else if b.isEmpty then goClean a
  else goClean (a ++ '/' :: b)

/-- Non-empty slash-separated components of a cleaned path. -/
def pathComps (p : GoStr) : List GoStr :=
  (splitOnChar '/' p).filter (fun c => !c.isEmpty)

/-- Strip the common leading components of two component lists. -/
def stripCommon : List GoStr → List GoStr → List GoStr × List GoStr
  | b :: bs, t :: ts => if b = t then stripCommon bs ts else (b :: bs, t :: ts)
  | bs, ts => (bs, ts)

/-- `filepath.Rel base targ` (Unix); `none` models the error return. -/
def goRel (base0 targ0 : GoStr) : Option GoStr :=
  let base1 := goClean base0
  let targ := goClean targ0
  if targ = base1 then some [dotC]
  else
    let base := if base1 = [dotC] then [] else base1
    if (base.head? = some '/') ≠ (targ.head? = some '/') then none
    else
      let (brest, trest) := stripCommon (pathComps base) (pathComps targ)
      if brest.head? = some [dotC, dotC] then none
      else
        let ups := List.replicate brest.length [dotC, dotC]
        some (joinWith ['/'] (ups ++ trest))

/-! ## Directory sandbox

Source: `sandbox.go` (package main; `cmd/helix` links an identical copy
through `internal/commands`).  `os.Getwd` is replaced by the explicit
`allowedDir` field; `ValidateCommand` and every helper below are pure. -/

/-- `SandboxMode`. -/
inductive SandboxMode where
  | disabled | currentDir | strict
  deriving DecidableEq

/-- `DirectorySandbox` (the `originalDir` field plays no role in
validation and is omitted). -/
structure DirectorySandbox where
  allowedDir : GoStr
  mode : SandboxMode
  deriving DecidableEq

/-- The five `absolutePathPatterns` regexes:
`\s/(?:[^/]\S*)?`, `(?i)\s[a-z]:\\`, `rm\s+-rf\s+/`,
`chmod\s+.*\s+/`, `chown\s+.*\s+/`. -/
def absolutePathPatterns : List RE :=
  [seqList [spaceRE, chC '/',
            optRE (.seq (.cls (fun c => !(c == '/'))) (.star nonSpaceRE))],
   seqList [spaceRE,
            .cls (fun c => 97 ≤ (charToLower c).toNat && (charToLower c).toNat ≤ 122),
            chC ':', chC bslC],
   seqList [strRE (str "rm"), plusRE spaceRE, strRE (str "-rf"),
            plusRE spaceRE, chC '/'],
   seqList [strRE (str "chmod"), plusRE spaceRE, .star dotRE,
            plusRE spaceRE, chC '/'],
   seqList [strRE (str "chown"), plusRE spaceRE, .star dotRE,
            plusRE spaceRE, chC '/']]

/-- `containsAbsolutePathTraversal`. -/
def containsAbsolutePathTraversal (command : GoStr) : Bool :=
  absolutePathPatterns.any (fun r => searchRE r command)

/-- The `escapePatterns` table. -/
def escapePatterns : List GoStr :=
  [str "cd ..", str "cd ../", str "cd ..\\",
   str "rm -rf ../", str "rm -rf ..\\",
   str "../", str "..\\"]

/-- `isJustChecking`: the leading command is purely observational. -/
def isJustChecking (command : GoStr) : Bool :=
  [str "ls", str "find", str "grep", str "cat", str "head", str "tail",
   str "file", str "stat", str "du", str "df", str "pwd", str "echo",
   str "print"].any (fun p => isPrefixB p command)

/-- `containsDirectoryEscape`: some escape pattern occurs and the command
is not merely inspecting (the source's `continue` skips every pattern
when `isJustChecking` holds). -/
def containsDirectoryEscape (command : GoStr) : Bool :=
  containsAny command escapePatterns && !(isJustChecking command)

/-- The `dangerousCommands` table of
`containsDangerousExternalOperations`. -/
def sandboxDangerousCommands : List GoStr :=
  [str "rm -rf", str "chmod", str "chown", str "mv ", str "cp ",
   str "dd ", str "format", str "mkfs", str "fdisk"]

/-- `isCommonNonFileArgument`. -/
def isCommonNonFileArgument (arg : GoStr) : Bool :=
  containsAny arg
    [str "yes", str "no", str "true", str "false", str "0", str "1",
     str "localhost", str "127.0.0.1", str "0.0.0.0",
     str "http://", str "https://", str "ftp://"]

/-- `extractFileArguments`: every word after the first that is not a flag
and not a common non-file argument. -/
def extractFileArguments (command : GoStr) : List GoStr :=
  ((goFields command).drop 1).filter
    (fun w => !(isPrefixB [ '-' ] w) && !(isCommonNonFileArgument w))

/-- `isOutsideSandbox`: clean, resolve against the allowed directory, and
test whether the path-relative form starts with `..` (a `Rel` error also
counts as outside). -/
def isOutsideSandbox (ds : DirectorySandbox) (path : GoStr) : Bool :=
  let cleanPath := goClean path
  let cleanPath := if goIsAbs cleanPath then cleanPath else goJoin ds.allowedDir cleanPath
  match goRel ds.allowedDir cleanPath with
  | none => true
  | some rel => isPrefixB [dotC, dotC] rel

/-- `operatesOutsideCurrentDir`. -/
def operatesOutsideCurrentDir (ds : DirectorySandbox) (command : GoStr) : Bool :=
  (extractFileArguments command).any (fun a => isOutsideSandbox ds a)

/-- `containsDangerousExternalOperations`: a dangerous operation together
with an extracted argument that resolves outside the sandbox. -/
def containsDangerousExternalOperations (ds : DirectorySandbox) (command : GoStr) : Bool :=
  containsAny command sandboxDangerousCommands && operatesOutsideCurrentDir ds command

/-- `DirectorySandbox.ValidateCommand`: lower-case the command and apply
the three rejection checks in order. -/
def sandboxValidateCommand (ds : DirectorySandbox) (command0 : GoStr) : Bool × GoStr :=
  if ds.mode = SandboxMode.disabled then (true, [])
  else
    let command := goToLower command0
    if containsAbsolutePathTraversal command then
      (false, str "Command contains absolute path traversal")
    else if containsDirectoryEscape command then
      (false, str "Command attempts to escape sandbox directory")
    else if containsDangerousExternalOperations ds command then
      (false, str "Command performs dangerous operations outside sandbox")
    else (true, [])

/-! ## Command repair (`cmd/helix/helpers.go`, `attemptCommandFix`) and the
quote repair of `internal/utils` (`utils.FixUnmatchedQuotes`). -/

/-- `utils.FixUnmatchedQuotes`: append the missing closing quote only for
a clearly truncated quoted file pattern. -/
def FixUnmatchedQuotes (command : GoStr) : GoStr :=
  let s := countChar sqC command
  let d := countChar dqC command
  if s % 2 = 0 && d % 2 = 0 then command
  else if d % 2 ≠ 0 && isInfixB [dqC, starC, dotC] command then command ++ [dqC]
  else if s % 2 ≠ 0 && isInfixB [sqC, starC, dotC] command then command ++ [sqC]
  else command

/-- Wrap in single quotes. -/
def q1 (s : GoStr) : GoStr := sqC :: s ++ [sqC]

/-- Wrap in double quotes. -/
def q2 (s : GoStr) : GoStr := dqC :: s ++ [dqC]

/-- Prefix with `-name `. -/
def nmArg (s : GoStr) : GoStr := str "-name " ++ s

/-- A single-quoted wrong/correct row for one extension. -/
def extRow (e : GoStr) : GoStr × GoStr :=
  (nmArg (q1 (dotC :: e)), nmArg (q1 (starC :: dotC :: e)))

/-- The `filePatterns` table of `attemptCommandFix`, in source order. -/
def filePatternRows : List (GoStr × GoStr) :=
  [extRow (str "go"),
   (nmArg (q2 (str ".go")), nmArg (q2 (str "*.go"))),
   (nmArg (str ".go"), nmArg (q1 (str "*.go"))),
   (nmArg (sqC :: str ".go"), nmArg (q1 (str "*.go"))),
   (nmArg (dqC :: str "*.go"), nmArg (q2 (str "*.go"))),
   (nmArg (sqC :: str "*.go"), nmArg (q1 (str "*.go"))),
   extRow (str "py"), extRow (str "js"), extRow (str "md"),
   extRow (str "txt"), extRow (str "java"), extRow (str "cpp"),
   extRow (str "c"), extRow (str "html"), extRow (str "css")]

/-- One row of Fix 1: `strings.Contains` + `strings.Replace _ _ _ 1`. -/
def fix1Step (cmd : GoStr) (row : GoStr × GoStr) : GoStr :=
  if isInfixB row.1 cmd then replaceOnce cmd row.1 row.2 else cmd

/-- Fix 1: apply each file-pattern row in order. -/
def fix1 (c : GoStr) : GoStr := filePatternRows.foldl fix1Step c

/-- ASCII letter or digit (the class `[a-zA-Z0-9]`). -/
def isAlnumB (c : Char) : Bool :=
  (97 ≤ c.toNat && c.toNat ≤ 122) || (65 ≤ c.toNat && c.toNat ≤ 90) ||
  (48 ≤ c.toNat && c.toNat ≤ 57)

/-- A quote character (the class `['"]`). -/
def isQuoteB (c : Char) : Bool := (c == sqC) || (c == dqC)

/-- Try to match `-name\s+['"]?(\.[a-zA-Z0-9]+)['"]?` at the start of `s`;
on success return the whole match and the captured extension.  Greedy
matching coincides with Go's leftmost-first semantics for this pattern
because no element can steal characters from the next. -/
def matchNameFixAt (s : GoStr) : Option (GoStr × GoStr) :=
  if isPrefixB (str "-name") s then
    let rest := s.drop 5
    let sp := rest.takeWhile reSpace
    if sp.isEmpty then none
    else
      let rest2 := rest.drop sp.length
      let qpre : GoStr := match rest2.head? with
        | some c => if isQuoteB c then [c] else []
        | none => []
      let rest3 := rest2.drop qpre.length
      match rest3 with
      | c :: t =>
          if c = dotC then
            let al := t.takeWhile isAlnumB
            if al.isEmpty then none
            else
              let rest4 := t.drop al.length
              let qsuf : GoStr := match rest4.head? with
                | some c2 => if isQuoteB c2 then [c2] else []
                | none => []
              let ext := dotC :: al
              some (str "-name" ++ sp ++ qpre ++ ext ++ qsuf, ext)
          else none
      | [] => none
  else none

/-- Leftmost match of the Fix-2 pattern (`FindStringSubmatch`). -/
def findNameFix : GoStr → Option (GoStr × GoStr)
  | [] => none
  | c :: t =>
      match matchNameFixAt (c :: t) with
      | some r => some r
      | none => findNameFix t

/-- Fix 2: regex-based wildcard insertion. -/
def fix2 (c : GoStr) : GoStr :=
  match findNameFix c with
  | none => c
  | some (whole, ext) =>
      let correct := replaceOnce whole ext (starC :: ext)
      replaceOnce c whole correct

/-- Fix 3: trim white space, strip one trailing `);`, then one bare
trailing `)` when no `(` occurs. -/
def fix3 (c0 : GoStr) : GoStr :=
  let c1 := goTrimSpace c0
  let c2 := if hasSuffixB c1 (str ");") then trimSuffixGo c1 (str ");") else c1
  if hasSuffixB c2 (str ")") && !(isInfixB (str "(") c2) then trimSuffixGo c2 (str ")") else c2

/-- Fix 5: strip a spurious `git ` before `find`. -/
def fix5 (c : GoStr) : GoStr :=
  let c1 := if isPrefixB (str "git find") c then trimPrefixGo c (str "git ") else c
  replaceAllGo c1 (str "git find") (str "find")

/-- `attemptCommandFix`: the five repair stages in order (the final
`command != originalCommand` comparison in the source returns the same
value in both branches). -/
def attemptCommandFix (c : GoStr) : GoStr :=
  fix5 (FixUnmatchedQuotes (fix3 (fix2 (fix1 c))))

/-! ## Persistence (`saveVectorIndex`, `saveSystemState`)

The on-disk effects of the two state writers, as the sequence of
filesystem operations each performs.  `data` stands for the marshalled
JSON payload. -/

/-- A filesystem operation. -/
inductive FsOp where
  | mkdirAll : GoStr → FsOp
  | writeFile : GoStr → GoStr → FsOp
  | rename : GoStr → GoStr → FsOp
  deriving DecidableEq

/-- `VectorStore.saveVectorIndex`: ensure the directory, write
`vector_index.json.tmp`, rename it onto `vector_index.json`. -/
def saveVectorIndexOps (indexDir data : GoStr) : List FsOp :=
  let indexFile := goJoin indexDir (str "vector_index.json")
  [FsOp.mkdirAll indexDir,
   FsOp.writeFile (indexFile ++ str ".tmp") data,
   FsOp.rename (indexFile ++ str ".tmp") indexFile]

/-- `RAGSystem.saveSystemState`: a single direct `os.WriteFile` of the
state file. -/
def saveSystemStateOps (stateFile data : GoStr) : List FsOp :=
  [FsOp.writeFile stateFile data]

/-- An operation sequence updates `final` atomically when it never writes
`final` directly and it renames some previously written file onto
`final`. -/
def isAtomicWrite (ops : List FsOp) (final : GoStr) : Bool :=
  (ops.all fun op => match op with
    | FsOp.writeFile p _ => !(decide (p = final))
    | _ => true) &&
  (ops.any fun op => match op with
    | FsOp.rename src dst =>
        decide (dst = final) &&
        (ops.any fun op2 => match op2 with
          | FsOp.writeFile p _ => decide (p = src)
          | _ => false)
    | _ => false)

/-! ## Exact fractions

The float32 scores of the retrieval store are modelled by exact fractions
with a positive denominator (stored as `den1 + 1`), so that score
arithmetic reduces inside the kernel.  Order and arithmetic are the usual
fraction order and arithmetic; representations are not normalized, which
is harmless since the verified properties only compare scores. -/

/-- An exact fraction `num / (den1 + 1)`. -/
structure Frac where
  num : Int
  den1 : Nat
  deriving DecidableEq

/-- The (always positive) denominator, as an integer. -/
def Frac.denZ (a : Frac) : Int := (a.den1 : Int) + 1

/-- Fraction addition. -/
def Frac.add (a b : Frac) : Frac :=
  ⟨a.num * b.denZ + b.num * a.denZ, a.den1 * b.den1 + a.den1 + b.den1⟩

/-- Fraction multiplication. -/
def Frac.mul (a b : Frac) : Frac :=
  ⟨a.num * b.num, a.den1 * b.den1 + a.den1 + b.den1⟩

/-- Embed an integer. -/
def Frac.ofInt (n : Int) : Frac := ⟨n, 0⟩

/-- The quotient `a / b` of two naturals (only used with `0 < b`). -/
def fracRatio (a b : Nat) : Frac := ⟨(a : Int), b - 1⟩

/-- Comparison `a ≤ b` by cross multiplication. -/
def Frac.le (a b : Frac) : Prop := a.num * b.denZ ≤ b.num * a.denZ

/-- Comparison `a < b` by cross multiplication. -/
def Frac.lt (a b : Frac) : Prop := a.num * b.denZ < b.num * a.denZ

instance (a b : Frac) : Decidable (Frac.le a b) :=
  inferInstanceAs (Decidable (_ ≤ _))

instance (a b : Frac) : Decidable (Frac.lt a b) :=
  inferInstanceAs (Decidable (_ < _))

/-- The score threshold `0.1`. -/
def fracTenth : Frac := ⟨1, 9⟩

/-- Sum of a list of fractions. -/
def fracSum (l : List Frac) : Frac := l.foldr Frac.add (Frac.ofInt 0)

/-- Denominators are positive. -/
theorem Frac.denZ_pos (a : Frac) : 0 < a.denZ := by
  unfold Frac.denZ
  positivity

/-- `Frac.le` is transitive (cross multiplication with positive
denominators). -/
theorem Frac.le_trans {x y z : Frac} (h1 : Frac.le x y) (h2 : Frac.le y z) :
    Frac.le x z := by
  unfold Frac.le at h1 h2 ⊢
  refine le_of_mul_le_mul_right ?_ y.denZ_pos
  calc x.num * z.denZ * y.denZ = x.num * y.denZ * z.denZ := by ring
    _ ≤ y.num * x.denZ * z.denZ := mul_le_mul_of_nonneg_right h1 z.denZ_pos.le
    _ = y.num * z.denZ * x.denZ := by ring
    _ ≤ z.num * y.denZ * x.denZ := mul_le_mul_of_nonneg_right h2 x.denZ_pos.le
    _ = z.num * x.denZ * y.denZ := by ring

/-- `Frac.le` is total. -/
theorem Frac.le_total (a b : Frac) : Frac.le a b ∨ Frac.le b a := by
  unfold Frac.le
  exact Int.le_total _ _

/-! ## Vector store (`vectorstore.go`)

Documents carry the fields the verified operations read.  The
nondeterministic iteration order of Go's `docScores` map is an explicit
`order` parameter (a permutation of the document ids); `sort.Slice`,
which is not stable, is modelled by a stable insertion sort, folding all
order nondeterminism into that single parameter.  float32 scores are
exact fractions and `math.Log` is the abstract parameter `logf`. -/

/-- A `VectorDocument` together with its metadata. -/
structure VDoc where
  id : GoStr
  content : GoStr
  command : GoStr
  sectionTag : GoStr
  description : GoStr
  options : List GoStr
  examples : List GoStr
  deriving DecidableEq

/-- The in-memory store: the document set (keyed by id) and the
`initialized` flag.  The inverted index is recomputed from the contents,
exactly as `loadVectorIndex` rebuilds it. -/
structure VectorStoreM where
  documents : List VDoc
  initialized : Bool

/-- The punctuation cutset `.,!?;:"'()[]{}` of `tokenize`. -/
def punctCutset : GoStr :=
  [dotC, ',', '!', '?', ';', ':', dqC, sqC, '(', ')', '[', ']',
   Char.ofNat 123, Char.ofNat 125]

/-- `isStopWord`. -/
def isStopWord (w : GoStr) : Bool :=
  [str "the", str "and", str "for", str "with", str "this", str "that",
   str "from", str "are", str "was", str "were", str "have", str "has",
   str "had", str "will", str "would", str "could", str "should",
   str "can", str "may", str "might", str "which", str "what",
   str "when", str "where", str "why", str "how", str "who",
   str "whom", str "whose"].contains w

/-- `VectorStore.tokenize`: lower-case, split on white space, trim
punctuation, keep words longer than 2 that are not stop words. -/
def tokenize (text : GoStr) : List GoStr :=
  ((goFields (goToLower text)).map (fun w => goTrimCutset w punctCutset)).filter
    (fun w => decide (2 < w.length) && !(isStopWord w))

/-- Occurrences of token `w` in a document's content (how many times the
document's id appears in the posting list of `w`). -/
def countToken (w : GoStr) (d : VDoc) : Nat := (tokenize d.content).count w

/-- Length of the posting list of `w`: total occurrences over all
documents (`len(docIDs)` in the source). -/
def postingLen (vs : VectorStoreM) (w : GoStr) : Nat :=
  (vs.documents.map (fun d => countToken w d)).sum

/-- TF-IDF contribution of one query token to one document:
`count · (df/N) · logf (N/df)` when the token is indexed. -/
def tfidfScore (vs : VectorStoreM) (logf : Frac → Frac) (w : GoStr) (d : VDoc) : Frac :=
  let df := postingLen vs w
  if df = 0 then Frac.ofInt 0
  else
    let N := vs.documents.length
    Frac.mul (Frac.ofInt (countToken w d))
      (Frac.mul (fracRatio df N) (logf (fracRatio N df)))

/-- The additive boosts of `Search` for one document. -/
def boostScore (query : GoStr) (d : VDoc) : Frac :=
  let queryLower := goToLower query
  let cmdLower := goToLower d.command
  let qws := tokenize query
  Frac.add (if goContains queryLower (str "list") && goContains queryLower (str "file") &&
      (cmdLower = str "ls" ∨ cmdLower = str "find" ∨ cmdLower = str "dir")
    then Frac.ofInt 3 else Frac.ofInt 0)
  (Frac.add (if (goContains queryLower (str "directory") || goContains queryLower (str "folder")) &&
      (cmdLower = str "ls" ∨ cmdLower = str "pwd" ∨ cmdLower = str "dir")
    then Frac.ofInt 2 else Frac.ofInt 0)
  (Frac.add (if goToLower (goTrimSpace query) = cmdLower then Frac.ofInt 2 else Frac.ofInt 0)
  (Frac.add (if goContains queryLower cmdLower then (⟨3, 1⟩ : Frac) else Frac.ofInt 0)
  (Frac.mul (⟨1, 1⟩ : Frac)
    (Frac.ofInt ((qws.filter (fun w => goContains cmdLower w)).length))))))

/-- The multiplicative penalty of `Search` for one document. -/
def penaltyFactor (query : GoStr) (d : VDoc) : Frac :=
  let queryLower := goToLower query
  let cmdLower := goToLower d.command
  if (isPrefixB (str "git-") cmdLower && !(goContains queryLower (str "git"))) ||
     (isPrefixB (str "kubectl") cmdLower && !(goContains queryLower (str "kube"))) ||
     ((cmdLower = str "killall" ∨ cmdLower = str "rm") &&
      !(goContains queryLower (str "kill")) && !(goContains queryLower (str "remove")))
  then (⟨1, 9⟩ : Frac) else Frac.ofInt 1

/-- The final score `Search` assigns to a document: the TF-IDF sum over
the query tokens plus the boosts, then the penalty.  All contributions
accumulate on a per-document map entry, so the score is a deterministic
function of the store contents and the query. -/
def computeScore (vs : VectorStoreM) (logf : Frac → Frac) (query : GoStr) (d : VDoc) : Frac :=
  Frac.mul
    (Frac.add (fracSum ((tokenize query).map (fun w => tfidfScore vs logf w d)))
      (boostScore query d))
    (penaltyFactor query d)

/-- Descending-score order on scored documents. -/
def resLE (a b : VDoc × Frac) : Prop := Frac.le b.2 a.2

instance : DecidableRel resLE := fun a b => inferInstanceAs (Decidable (Frac.le b.2 a.2))

instance : IsTotal (VDoc × Frac) resLE := ⟨fun a b => Frac.le_total b.2 a.2⟩

instance : IsTrans (VDoc × Frac) resLE := ⟨fun _ _ _ h1 h2 => Frac.le_trans h2 h1⟩

/-- Look a document up by id. -/
def findDoc (vs : VectorStoreM) (id : GoStr) : Option VDoc :=
  vs.documents.find? (fun d => d.id = id)

/-- The result list of `Search` on an initialized store: walk the score
map in the given `order`, keep entries whose document exists and whose
score exceeds 0.1, sort by score descending, truncate to `limit`. -/
def searchResults (vs : VectorStoreM) (logf : Frac → Frac) (query : GoStr)
    (limit : Nat) (order : List GoStr) : List (VDoc × Frac) :=
  let cands := order.filterMap (fun id =>
    match findDoc vs id with
    | some d =>
        let s := computeScore vs logf query d
        if Frac.lt fracTenth s then some (d, s) else none
    | none => none)
  (List.insertionSort resLE cands).take limit

/-- Store-level errors. -/
inductive StoreErr where
  | notInitialized : StoreErr
  | notFound : GoStr → StoreErr
  deriving DecidableEq

/-- `VectorStore.Search`. -/
def storeSearch (vs : VectorStoreM) (logf : Frac → Frac) (query : GoStr)
    (limit : Nat) (order : List GoStr) : Except StoreErr (List (VDoc × Frac)) :=
  if vs.initialized = false then .error .notInitialized
  else .ok (searchResults vs logf query limit order)

/-- A valid iteration order enumerates the document ids exactly once. -/
def validOrder (vs : VectorStoreM) (order : List GoStr) : Bool :=
  decide (order.Perm (vs.documents.map (fun d => d.id)))

/-- `CommandInfo`. -/
structure CommandInfo where
  name : GoStr
  description : GoStr
  synopsis : GoStr
  options : List GoStr
  examples : List GoStr
  deriving DecidableEq

/-- `removeDuplicates`: keep the first occurrence of each string. -/
def removeDuplicates : List GoStr → List GoStr → List GoStr
  | [], _ => []
  | x :: rest, seen =>
      if seen.contains x then removeDuplicates rest seen
      else x :: removeDuplicates rest (x :: seen)

/-- One step of the `GetCommandInfo` merge over the document set. -/
def mergeStep (command : GoStr) (info : CommandInfo) (d : VDoc) : CommandInfo :=
  if d.command = command then
    if d.sectionTag = str "command" then { info with description := d.description }
    else if d.sectionTag = str "synopsis" then { info with synopsis := d.content }
    else if d.sectionTag = str "options" then { info with options := info.options ++ d.options }
    else if d.sectionTag = str "examples" then { info with examples := info.examples ++ d.examples }
    else info
  else info

/-- `VectorStore.GetCommandInfo`: merge every document of the command,
deduplicate options and examples, and fail when the merged description is
empty. -/
def GetCommandInfo (vs : VectorStoreM) (command : GoStr) : Except StoreErr CommandInfo :=
  if vs.initialized = false then .error .notInitialized
  else
    let info1 := vs.documents.foldl (mergeStep command) ⟨command, [], [], [], []⟩
    let info2 := { info1 with options := removeDuplicates info1.options [],
                              examples := removeDuplicates info1.examples [] }
    if info2.description = [] then .error (.notFound command)
    else .ok info2

/-- The description `GetCommandInfo` ends up with: that of the last
`command`-section document of the command, or empty. -/
def mergedDescription (vs : VectorStoreM) (command : GoStr) : GoStr :=
  match vs.documents.reverse.find?
      (fun d => decide (d.command = command) && decide (d.sectionTag = str "command")) with
  | some d => d.description
  | none => []

/-- First-occurrence deduplication of a list of commands (the key set of
the `commandDocs` grouping map). -/
def dedupFirst : List GoStr → List GoStr → List GoStr
  | [], _ => []
  | x :: rest, seen =>
      if seen.contains x then dedupFirst rest seen
      else x :: dedupFirst rest (x :: seen)

/-- The `GetRelevantCommands` result loop: resolve each command key until
`maxResults` results have been collected (the length test runs after each
append, as in the source). -/
def grcLoop (vs : VectorStoreM) (maxResults : Nat) :
    List GoStr → List CommandInfo → List CommandInfo
  | [], acc => acc
  | c :: rest, acc =>
      let acc2 := match GetCommandInfo vs c with
        | .ok info => acc ++ [info]
        | .error _ => acc
      if maxResults ≤ acc2.length then acc2 else grcLoop vs maxResults rest acc2

/-- `VectorStore.GetRelevantCommands`: search with `2·maxResults`, group
the hits by command, and resolve the keys in map-iteration order `ord2`
(restricted to the actual keys). -/
def GetRelevantCommands (vs : VectorStoreM) (logf : Frac → Frac) (query : GoStr)
    (maxResults : Nat) (ord1 ord2 : List GoStr) : Except StoreErr (List CommandInfo) :=
  match storeSearch vs logf query (maxResults * 2) ord1 with
  | .error e => .error e
  | .ok docs =>
      let keys := dedupFirst (docs.map (fun r => r.1.command)) []
      .ok (grcLoop vs maxResults (ord2.filter (fun c => keys.contains c)) [])

/-! ## RAG orchestrator (`internal/rag/system.go`) -/

/-- `RetrievalResult` (the wall-clock field is an effect and omitted). -/
structure RetrievalResultM where
  commands : List CommandInfo
  usedRAG : Bool
  deriving DecidableEq

/-- The RAG system: its own `initialized` flag plus the store. -/
structure RagModel where
  initialized : Bool
  store : VectorStoreM

/-- `isCommonWord` of `extractPotentialCommands`. -/
def isCommonWord (w : GoStr) : Bool :=
  [str "the", str "a", str "an", str "and", str "or", str "but",
   str "in", str "on", str "at", str "to", str "for", str "of",
   str "with", str "by", str "from", str "up", str "down",
   str "how", str "what", str "when", str "where", str "why",
   str "list", str "show", str "display", str "find", str "search",
   str "get", str "set", str "create", str "delete", str "remove",
   str "install", str "update", str "upgrade"].contains w
  || decide (w.length < 2)

/-- `looksLikeCommand`: 2–20 characters from `[a-z0-9.-]`. -/
def looksLikeCommand (w : GoStr) : Bool :=
  decide (2 ≤ w.length) && decide (w.length ≤ 20) &&
  w.all (fun c => (97 ≤ c.toNat && c.toNat ≤ 122) ||
                  (48 ≤ c.toNat && c.toNat ≤ 57) ||
                  (c == '-') || (c == dotC))

/-- `extractPotentialCommands`. -/
def extractPotentialCommands (query : GoStr) : List GoStr :=
  (goFields (goToLower query)).filter
    (fun w => !(isCommonWord w) && looksLikeCommand w)

/-- `isRelevantCommand`: the post-search relevance filter. -/
def isRelevantCommand (query : GoStr) (cmd : CommandInfo) : Bool :=
  let queryLower := goToLower query
  let cmdLower := goToLower cmd.name
  if isPrefixB (str "git-") cmdLower && !(goContains queryLower (str "git")) then false
  else if isPrefixB (str "kubectl") cmdLower && !(goContains queryLower (str "kube")) then false
  else if (cmdLower = str "killall" ∨ cmdLower = str "rm") &&
          !(goContains queryLower (str "kill")) && !(goContains queryLower (str "remove")) then false
  else if cmd.description = [] ∨ cmd.description.length < 10 then false
  else true

/-- Name-based first-occurrence deduplication of command records. -/
def dedupByName : List CommandInfo → List GoStr → List CommandInfo
  | [], _ => []
  | c :: rest, seen =>
      if seen.contains c.name then dedupByName rest seen
      else c :: dedupByName rest (c.name :: seen)

/-- `combineResults`: exact matches first, then the relevant commands,
deduplicated by name; `UsedRAG` records whether anything was kept. -/
def combineResults (exact relevant : List CommandInfo) : RetrievalResultM :=
  let combined := dedupByName (exact ++ relevant) []
  ⟨combined, decide (0 < combined.length)⟩

/-- `RAGSystem.Retrieve`: exact matches from the query words plus the
filtered relevant commands from a top-3 `GetRelevantCommands` call
(`ord1`, `ord2` are the two map-iteration orders involved). -/
def ragRetrieve (rs : RagModel) (logf : Frac → Frac) (query : GoStr)
    (ord1 ord2 : List GoStr) : RetrievalResultM :=
  if rs.initialized = false then ⟨[], false⟩
  else
    let potential := extractPotentialCommands query
    match GetRelevantCommands rs.store logf query 3 ord1 ord2 with
    | .error _ => ⟨[], false⟩
    | .ok relevant =>
        let filtered := relevant.filter (fun c => isRelevantCommand query c)
        let exact := potential.filterMap (fun c => (GetCommandInfo rs.store c).toOption)
        combineResults exact filtered

/-- The options a block lists: the first 5 when more are present. -/
def blockOptionsShown (c : CommandInfo) : List GoStr :=
  if 5 < c.options.length then c.options.take 5 else c.options

/-- The examples a block lists: the first 2 when more are present. -/
def blockExamplesShown (c : CommandInfo) : List GoStr :=
  if 2 < c.examples.length then c.examples.take 2 else c.examples

/-- One numbered command block of `buildEnhancedPrompt` (`i` is the
zero-based loop index; the source prints `i+1`). -/
def buildBlock (i : Nat) (c : CommandInfo) : GoStr :=
  str "COMMAND " ++ natToStr (i + 1) ++ str ": " ++ c.name ++ [nlC] ++
  (if c.description ≠ [] then str "Description: " ++ c.description ++ [nlC] else []) ++
  (if c.synopsis ≠ [] then str "Usage: " ++ c.synopsis ++ [nlC] else []) ++
  (if c.options ≠ [] then
     str "Common Options: " ++ joinWith (str ", ") (blockOptionsShown c) ++
     (if 5 < c.options.length then str "..." ++ [nlC] else [nlC])
   else []) ++
  (if c.examples ≠ [] then
     str "Examples: " ++ joinWith (str " | ") (blockExamplesShown c) ++
     (if 2 < c.examples.length then str "..." ++ [nlC] else [nlC])
   else []) ++
  [nlC]

/-- The concatenated blocks, numbered from `i`. -/
def joinBlocks (i : Nat) : List CommandInfo → GoStr
  | [] => []
  | c :: rest => buildBlock i c ++ joinBlocks (i + 1) rest

/-- `buildEnhancedPrompt`. -/
def buildEnhancedPrompt (originalPrompt : GoStr) (result : RetrievalResultM) : GoStr :=
  str "ADDITIONAL CONTEXT FROM SYSTEM MANUAL PAGES:" ++ [nlC] ++
  str "The following command information is available on this system:" ++ [nlC, nlC] ++
  joinBlocks 0 result.commands ++
  str "ORIGINAL PROMPT:" ++ [nlC] ++
  originalPrompt

/-- `RAGSystem.EnhancePrompt`. -/
def EnhancePrompt (rs : RagModel) (logf : Frac → Frac) (userInput originalPrompt : GoStr)
    (ord1 ord2 : List GoStr) : GoStr :=
  if rs.initialized = false || goTrimSpace userInput = [] then originalPrompt
  else
    let result := ragRetrieve rs logf userInput ord1 ord2
    if result.usedRAG = false || result.commands.length = 0 then originalPrompt
    else buildEnhancedPrompt originalPrompt result

/-- Occurrences of `pat` in `s` (number of positions where `pat` starts). -/
def countOcc (pat : GoStr) : GoStr → Nat
  | [] => 0
  | c :: cs => (if isPrefixB pat (c :: cs) then 1 else 0) + countOcc pat cs

/-! ## Concrete instances used by the individual claims -/

/-- An abstract-logarithm instantiation for concrete runs whose scores do
not involve TF-IDF terms (no query token occurs in any posting list). -/
def logfZero : Frac → Frac := fun _ => Frac.ofInt 0

/-- Is a scored result list sorted by score, descending? -/
def sortedDescB : List (VDoc × Frac) → Bool
  | [] => true
  | [_] => true
  | a :: b :: t => decide (Frac.le b.2 a.2) && sortedDescB (b :: t)

/-- Sandbox in `CurrentDir` mode rooted at `/home/alice/proj`. -/
def cexSandbox : DirectorySandbox := ⟨str "/home/alice/proj", SandboxMode.currentDir⟩

/-- Two documents of the same command with identical content: their
scores agree for every query and every logarithm. -/
def lsDocA : VDoc :=
  ⟨str "ls-command", str "alpha", str "ls", str "command",
   str "list directory contents", [], []⟩

/-- Companion document for `lsDocA`. -/
def lsDocB : VDoc :=
  ⟨str "ls-description", str "alpha", str "ls", str "description", [], [], []⟩

/-- Store with two tied documents. -/
def tieStore : VectorStoreM := ⟨[lsDocA, lsDocB], true⟩

/-- One map-iteration order of `tieStore`. -/
def tieOrder1 : List GoStr := [str "ls-command", str "ls-description"]

/-- The other map-iteration order of `tieStore`. -/
def tieOrder2 : List GoStr := [str "ls-description", str "ls-command"]

/-- `tar` command-section document. -/
def tarDoc : VDoc :=
  ⟨str "tar-command", str "archives data", str "tar", str "command",
   str "archive files utility", [], []⟩

/-- `grep` command-section document. -/
def grepDoc : VDoc :=
  ⟨str "grep-command", str "matches patterns", str "grep", str "command",
   str "print matching lines", [], []⟩

/-- `sort` command-section document. -/
def sortDoc : VDoc :=
  ⟨str "sort-command", str "orders lines", str "sort", str "command",
   str "sort text lines ok", [], []⟩

/-- `uniq` command-section document. -/
def uniqDoc : VDoc :=
  ⟨str "uniq-command", str "filters duplicates", str "uniq", str "command",
   str "report repeated lines", [], []⟩

/-- Store holding four distinct commands. -/
def fourStore : VectorStoreM := ⟨[tarDoc, grepDoc, sortDoc, uniqDoc], true⟩

/-- RAG system over `fourStore`. -/
def fourRag : RagModel := ⟨true, fourStore⟩

/-- Document-id iteration order for `fourStore`. -/
def fourOrd1 : List GoStr :=
  [str "tar-command", str "grep-command", str "sort-command", str "uniq-command"]

/-- Command-key iteration order for `fourStore`. -/
def fourOrd2 : List GoStr := [str "tar", str "grep", str "sort", str "uniq"]

/-- A query naming all four commands. -/
def fourQuery : GoStr := str "tar grep sort uniq"

/-- Demo store for the `GetCommandInfo` witnesses. -/
def demoStore : VectorStoreM :=
  ⟨[⟨str "pwd-command", str "prints the directory", str "pwd", str "command",
     str "print working directory", [], []⟩], true⟩

/-- An uninitialized store. -/
def uninitStore : VectorStoreM :=
  ⟨[⟨str "pwd-command", str "prints the directory", str "pwd", str "command",
     str "print working directory", [], []⟩], false⟩

/-! ## Supporting lemmas -/

theorem isPrefixB_iff : ∀ {p s : GoStr}, isPrefixB p s = true ↔ p <+: s
  | [], s => by simp [isPrefixB]
  | a :: ps, [] => by simp [isPrefixB]
  | a :: ps, c :: cs => by
      simp [isPrefixB, List.cons_prefix_cons, @isPrefixB_iff ps cs]

theorem isInfixB_iff : ∀ {p s : GoStr}, isInfixB p s = true ↔ p <:+: s
  | p, [] => by
      cases p <;> simp [isInfixB, isPrefixB]
  | p, c :: cs => by
      simp [isInfixB, isPrefixB_iff, @isInfixB_iff p cs, List.infix_cons_iff]

theorem infix_dropWhile_isSpace {a : Char} {pa s : GoStr} (hns : isSpaceB a = false)
    (h : (a :: pa) <:+: s) : (a :: pa) <:+: s.dropWhile isSpaceB := by
  induction s with
  | nil => simp at h
  | cons x xs ih =>
      rcases List.infix_cons_iff.mp h with hpre | hinf
      · rcases List.cons_prefix_cons.mp hpre with ⟨hax, _⟩
        subst hax
        rw [List.dropWhile_cons, hns]
        simpa using h
      · cases hx : isSpaceB x with
        | true =>
            rw [List.dropWhile_cons, hx]
            simpa using ih hinf
        | false =>
            rw [List.dropWhile_cons, hx]
            simpa using h

theorem infix_goTrimSpace {p s : GoStr} (hne : p ≠ [])
    (hhead : p.head?.all (fun c => !isSpaceB c) = true)
    (hlast : p.reverse.head?.all (fun c => !isSpaceB c) = true)
    (h : p <:+: s) : p <:+: goTrimSpace s := by
  obtain ⟨a, pa, rfl⟩ := List.exists_cons_of_ne_nil hne
  have ha : isSpaceB a = false := by simpa using hhead
  have h1 : (a :: pa) <:+: s.dropWhile isSpaceB := infix_dropWhile_isSpace ha h
  have h2 : (a :: pa).reverse <:+: (s.dropWhile isSpaceB).reverse := h1.reverse
  have hrne : ((a :: pa).reverse : GoStr) ≠ [] := by simp
  obtain ⟨b, pb, hb⟩ := List.exists_cons_of_ne_nil hrne
  have hbns : isSpaceB b = false := by
    have hl := hlast
    rw [hb] at hl
    simpa using hl
  rw [hb] at h2
  have h3 := infix_dropWhile_isSpace hbns h2
  rw [← hb] at h3
  have h4 := h3.reverse
  rw [goTrimSpace, dropTrailing]
  simpa using h4

theorem isSpaceB_charToLower (c : Char) : isSpaceB (charToLower c) = isSpaceB c := by
  unfold charToLower
  split <;> rfl

theorem dropWhile_isSpace_map_toLower (l : GoStr) :
    List.dropWhile isSpaceB (l.map charToLower) =
      (List.dropWhile isSpaceB l).map charToLower := by
  induction l with
  | nil => rfl
  | cons c cs ih =>
      rw [List.map_cons, List.dropWhile_cons, List.dropWhile_cons, isSpaceB_charToLower]
      cases h : isSpaceB c with
      | true => simpa using ih
      | false => simp

theorem goToLower_goTrimSpace (s : GoStr) :
    goToLower (goTrimSpace s) = goTrimSpace (goToLower s) := by
  show (((s.dropWhile isSpaceB).reverse.dropWhile isSpaceB).reverse).map charToLower
     = (((s.map charToLower).dropWhile isSpaceB).reverse.dropWhile isSpaceB).reverse
  rw [dropWhile_isSpace_map_toLower, ← List.map_reverse, dropWhile_isSpace_map_toLower,
      ← List.map_reverse]

theorem IsCommandSafe_trim_false {c : GoStr}
    (h : containsAny (goToLower c) dangerousPatterns = true) :
    goTrimSpace c ≠ [] ∧ IsCommandSafe (goTrimSpace c) = false := by
  obtain ⟨p, hp, hinf⟩ := List.any_eq_true.mp h
  have hedge : ∀ q ∈ dangerousPatterns, q ≠ [] ∧
      q.head?.all (fun x => !isSpaceB x) = true ∧
      q.reverse.head?.all (fun x => !isSpaceB x) = true := by decide
  obtain ⟨hne, hhead, hlast⟩ := hedge p hp
  have h2 : p <:+: goToLower c := isInfixB_iff.mp hinf
  have h3 : p <:+: goTrimSpace (goToLower c) := infix_goTrimSpace hne hhead hlast h2
  rw [← goToLower_goTrimSpace] at h3
  constructor
  · intro hnil
    rw [hnil] at h3
    simp [goToLower] at h3
    exact hne h3
  · have h4 : isInfixB p (goToLower (goTrimSpace c)) = true := isInfixB_iff.mpr h3
    have h5 : containsAny (goToLower (goTrimSpace c)) dangerousPatterns = true :=
      List.any_eq_true.mpr ⟨p, hp, h4⟩
    unfold IsCommandSafe
    simp [h5]

/-! ## C1: the safe-mode blocklist always blocks -/

/-- C1.  Every command whose lower-cased text contains one of the
blocklist substrings is, under any configuration with safe-mode enabled,
rejected by `commands.ExecuteCommand` with the blocked-for-safety error,
and no subprocess is spawned — independently of the auto-confirm and
dry-run flags and of the user's confirmation answer. -/
theorem executeCommand_blocklist_blocks (c : GoStr) (cfg : ExecuteConfig)
    (envShell : GoStr) (eff : ExecEffects)
    (hsafe : cfg.safeMode = true)
    (hpat : containsAny (goToLower c) dangerousPatterns = true) :
    commandsExecuteCommand c cfg envShell eff = ⟨ExecStatus.errBlocked, false⟩ := by
  obtain ⟨hne, hunsafe⟩ := IsCommandSafe_trim_false hpat
  unfold commandsExecuteCommand
  simp [hne, hunsafe, hsafe]

/-- Witness for C1 at `sudo rm -rf /` with auto-confirm on. -/
theorem executeCommand_blocklist_blocks_witness :
    (⟨false, true, true⟩ : ExecuteConfig).safeMode = true ∧
    containsAny (goToLower (str "sudo rm -rf /")) dangerousPatterns = true ∧
    commandsExecuteCommand (str "sudo rm -rf /") ⟨false, true, true⟩ (str "bash") ⟨true, true⟩
      = ⟨ExecStatus.errBlocked, false⟩ :=
  ⟨rfl, by decide, executeCommand_blocklist_blocks _ _ _ _ rfl (by decide)⟩

/-! ## C2: dry-run still spawns a subprocess -/

/-- C2 (code bug).  With the dry-run flag set, `commands.ExecuteCommand`
still spawns the host shell and runs the command: on the failing input
`echo hi` with every flag of the configuration set, the outcome records
a spawned subprocess, although the claim (and the printed "Dry Run:"
label) promise that no subprocess is started. -/
theorem executeCommand_dryRun_spawns :
    (commandsExecuteCommand (str "echo hi") ⟨true, true, true⟩ (str "bash")
        ⟨true, true⟩).spawned = true
      ∧ commandsExecuteCommand (str "echo hi") ⟨true, true, true⟩ (str "bash") ⟨true, true⟩
          = ⟨ExecStatus.ok, true⟩ := by
  constructor <;> rfl

/-! ## C4: the fourth malicious-pattern regex is mistranscribed -/

/-- C4 (code bug).  `utils.ValidateCommand` accepts the failing input
`echo hello > /dev/sda`, although the command matches the pattern
`>.*/dev/sd[a-z]` that the specification ascribes to the validator: the
compiled pattern is the raw string `>:\\s*/dev/sd[a-z]`, which requires
the literal characters `>:` and a backslash, so it never fires on a real
redirection.  (The other three patterns are transcribed correctly.) -/
theorem utilsValidateCommand_misses_dev_sda :
    utilsValidateCommand (str "echo hello > /dev/sda") = .ok () ∧
    searchRE reDevSdClaimed (str "echo hello > /dev/sda") = true ∧
    utilsValidateCommand (str "sudo rm -rf /") = .error .dangerousPattern ∧
    utilsValidateCommand (str "format d:") = .error .dangerousPattern ∧
    utilsValidateCommand (str "dd if=/dev/zero of=/dev/sda") = .error .dangerousPattern := by
  refine ⟨?_, ?_, ?_, ?_, ?_⟩ <;> rfl

/-! ## C9: only the vector index is written atomically -/

/-- C9 counterexample.  The write sequence `saveSystemState` performs for
the RAG state file is a single direct `os.WriteFile` of the final path —
not a temp-file-plus-rename — so it is not an atomic write. -/
theorem saveSystemState_not_atomic :
    isAtomicWrite
      (saveSystemStateOps (str "/home/user/.helix/rag_index/rag_state.json") (str "state"))
      (str "/home/user/.helix/rag_index/rag_state.json") = false := by
  rfl

/-- C9 amended.  The vector-index snapshot is written atomically (write
`vector_index.json.tmp`, rename onto `vector_index.json`), for every
index directory and payload; the RAG state file is never written
atomically — `saveSystemState` writes the final path in place. -/
theorem saveOps_atomicity (indexDir data stateFile data2 : GoStr) :
    isAtomicWrite (saveVectorIndexOps indexDir data)
      (goJoin indexDir (str "vector_index.json")) = true ∧
    isAtomicWrite (saveSystemStateOps stateFile data2) stateFile = false := by
  constructor
  · have hne : goJoin indexDir (str "vector_index.json") ++ str ".tmp" ≠
        goJoin indexDir (str "vector_index.json") := by
      intro h
      have hl := congrArg List.length h
      simp [str] at hl
    simp [saveVectorIndexOps, isAtomicWrite, hne]
  · simp [saveSystemStateOps, isAtomicWrite]

/-! ## C8: the repair pass is not idempotent -/

/-- C8 counterexample.  On `foo))` one application of the repair strips
one trailing parenthesis (`foo)`), and a second application strips
another (`foo`): applying the repair twice differs from applying it
once. -/
theorem attemptCommandFix_not_idempotent :
    attemptCommandFix (str "foo))") = str "foo)" ∧
    attemptCommandFix (attemptCommandFix (str "foo))")) = str "foo" ∧
    attemptCommandFix (attemptCommandFix (str "foo))")) ≠ attemptCommandFix (str "foo))") := by
  refine ⟨?_, ?_, ?_⟩ <;> decide

theorem dropWhile_self_idem (p : Char → Bool) :
    ∀ l : GoStr, (l.dropWhile p).dropWhile p = l.dropWhile p
  | [] => rfl
  | c :: cs => by
      rw [List.dropWhile_cons]
      cases h : p c with
      | true => simpa using dropWhile_self_idem p cs
      | false => rw [if_neg (by simp [h]), List.dropWhile_cons, h]; simp

theorem dropTrailing_prefix_self (p : Char → Bool) (l : GoStr) : dropTrailing p l <+: l := by
  unfold dropTrailing
  have h : (l.reverse.dropWhile p).reverse <+: l.reverse.reverse :=
    (List.dropWhile_suffix p).reverse
  simpa using h

theorem goTrimSpace_infix_self (s : GoStr) : goTrimSpace s <:+: s := by
  unfold goTrimSpace
  exact (dropTrailing_prefix_self isSpaceB (s.dropWhile isSpaceB)).isInfix.trans
    (List.dropWhile_suffix isSpaceB).isInfix

theorem head_dropWhile_false (p : Char → Bool) :
    ∀ (l : GoStr) (c : Char) (cs : GoStr), l.dropWhile p = c :: cs → p c = false
  | [], c, cs, h => by simp at h
  | x :: xs, c, cs, h => by
      rw [List.dropWhile_cons] at h
      cases hx : p x with
      | true =>
          rw [hx] at h
          simp only [if_true] at h
          exact head_dropWhile_false p xs c cs h
      | false =>
          rw [hx] at h
          simp only [Bool.false_eq_true, if_false, List.cons.injEq] at h
          rw [← h.1]
          exact hx

theorem goTrimSpace_idem (s : GoStr) : goTrimSpace (goTrimSpace s) = goTrimSpace s := by
  have hlead : (goTrimSpace s).dropWhile isSpaceB = goTrimSpace s := by
    cases ht : goTrimSpace s with
    | nil => rfl
    | cons c cs =>
        have hpre : goTrimSpace s <+: s.dropWhile isSpaceB :=
          dropTrailing_prefix_self isSpaceB (s.dropWhile isSpaceB)
        rw [ht] at hpre
        obtain ⟨t, htt⟩ := hpre
        have hc : isSpaceB c = false := by
          apply head_dropWhile_false isSpaceB s c (cs ++ t)
          rw [← htt]
          rfl
        rw [List.dropWhile_cons, hc]
        simp
  have htrail : dropTrailing isSpaceB (goTrimSpace s) = goTrimSpace s := by
    show (((goTrimSpace s).reverse).dropWhile isSpaceB).reverse = goTrimSpace s
    rw [show goTrimSpace s
          = ((s.dropWhile isSpaceB).reverse.dropWhile isSpaceB).reverse from rfl]
    rw [List.reverse_reverse, dropWhile_self_idem]
  show dropTrailing isSpaceB ((goTrimSpace s).dropWhile isSpaceB) = goTrimSpace s
  rw [hlead, htrail]

theorem isInfixB_trim_false {p c : GoStr} (h : isInfixB p c = false) :
    isInfixB p (goTrimSpace c) = false := by
  cases ht : isInfixB p (goTrimSpace c) with
  | false => rfl
  | true =>
      have hx : isInfixB p c = true :=
        isInfixB_iff.mpr ((isInfixB_iff.mp ht).trans (goTrimSpace_infix_self c))
      rw [hx] at h
      cases h

theorem countChar_trim_zero {x : Char} {c : GoStr} (h : countChar x c = 0) :
    countChar x (goTrimSpace c) = 0 := by
  have hle : (goTrimSpace c).count x ≤ c.count x :=
    ((goTrimSpace_infix_self c).sublist).count_le x
  unfold countChar at h ⊢
  omega

theorem fix1Step_id {c : GoStr} (h : isInfixB (str "-name") c = false)
    {r : GoStr × GoStr} (hr : isInfixB (str "-name") r.1 = true) : fix1Step c r = c := by
  unfold fix1Step
  cases hcase : isInfixB r.1 c with
  | false => simp
  | true =>
      have hx : isInfixB (str "-name") c = true :=
        isInfixB_iff.mpr ((isInfixB_iff.mp hr).trans (isInfixB_iff.mp hcase))
      rw [hx] at h
      cases h

theorem foldl_fix1Step_id {c : GoStr} (h : isInfixB (str "-name") c = false) :
    ∀ rows : List (GoStr × GoStr), (∀ r ∈ rows, isInfixB (str "-name") r.1 = true) →
      rows.foldl fix1Step c = c
  | [], _ => rfl
  | r :: rest, hr => by
      rw [List.foldl_cons, fix1Step_id h (hr r (List.mem_cons_self r rest))]
      exact foldl_fix1Step_id h rest (fun x hx => hr x (List.mem_cons_of_mem _ hx))

theorem fix1_eq_self {c : GoStr} (h : isInfixB (str "-name") c = false) : fix1 c = c := by
  unfold fix1
  exact foldl_fix1Step_id h filePatternRows (by decide)

theorem matchNameFixAt_some_prefix {s : GoStr} {r : GoStr × GoStr}
    (h : matchNameFixAt s = some r) : isPrefixB (str "-name") s = true := by
  cases hp : isPrefixB (str "-name") s with
  | true => rfl
  | false =>
      unfold matchNameFixAt at h
      rw [hp] at h
      simp at h

theorem findNameFix_none {c : GoStr} (h : isInfixB (str "-name") c = false) :
    findNameFix c = none := by
  induction c with
  | nil => rfl
  | cons x xs ih =>
      rw [show isInfixB (str "-name") (x :: xs)
            = (isPrefixB (str "-name") (x :: xs) || isInfixB (str "-name") xs) from rfl] at h
      obtain ⟨hpre, hrest⟩ := Bool.or_eq_false_iff.mp h
      unfold findNameFix
      cases hm : matchNameFixAt (x :: xs) with
      | some r =>
          have := matchNameFixAt_some_prefix hm
          rw [this] at hpre
          cases hpre
      | none => exact ih hrest

theorem fix2_eq_self {c : GoStr} (h : isInfixB (str "-name") c = false) : fix2 c = c := by
  unfold fix2
  rw [findNameFix_none h]

theorem mem_of_hasSuffixB {s suf : GoStr} {x : Char} (h : hasSuffixB s suf = true)
    (hx : x ∈ suf) : x ∈ s := by
  unfold hasSuffixB at h
  have h1 : suf.reverse <+: s.reverse := isPrefixB_iff.mp h
  have h2 : x ∈ s.reverse := h1.sublist.subset (List.mem_reverse.mpr hx)
  exact List.mem_reverse.mp h2

theorem fix3_eq_trim {c : GoStr} (h : countChar ')' c = 0) : fix3 c = goTrimSpace c := by
  have hmem : ')' ∉ goTrimSpace c := by
    intro hx
    have hin : ')' ∈ c := ((goTrimSpace_infix_self c).sublist).subset hx
    rw [countChar, List.count_eq_zero] at h
    exact h hin
  have h1 : hasSuffixB (goTrimSpace c) (str ");") = false := by
    cases hs : hasSuffixB (goTrimSpace c) (str ");") with
    | false => rfl
    | true => exact absurd (mem_of_hasSuffixB hs (by decide)) hmem
  have h2 : hasSuffixB (goTrimSpace c) (str ")") = false := by
    cases hs : hasSuffixB (goTrimSpace c) (str ")") with
    | false => rfl
    | true => exact absurd (mem_of_hasSuffixB hs (by decide)) hmem
  simp [fix3, h1, h2]

theorem fixUnmatchedQuotes_eq_self {c : GoStr} (h2 : countChar sqC c = 0)
    (h3 : countChar dqC c = 0) : FixUnmatchedQuotes c = c := by
  unfold FixUnmatchedQuotes
  rw [h2, h3]
  simp

theorem replaceAllFuel_eq_self (old new : GoStr) :
    ∀ (n : Nat) (s : GoStr), isInfixB old s = false → replaceAllFuel n s old new = s
  | 0, s, _ => rfl
  | _ + 1, [], _ => rfl
  | n + 1, x :: xs, h => by
      rw [show isInfixB old (x :: xs)
            = (isPrefixB old (x :: xs) || isInfixB old xs) from rfl] at h
      obtain ⟨hpre, hrest⟩ := Bool.or_eq_false_iff.mp h
      unfold replaceAllFuel
      by_cases he : old.isEmpty = true
      · rw [if_pos he]
      · rw [if_neg he, hpre]
        simp only [Bool.false_eq_true, if_false]
        rw [replaceAllFuel_eq_self old new n xs hrest]

theorem replaceAllGo_eq_self {s old new : GoStr} (h : isInfixB old s = false) :
    replaceAllGo s old new = s := replaceAllFuel_eq_self old new s.length s h

theorem fix5_eq_self {c : GoStr} (h : isInfixB (str "git find") c = false) : fix5 c = c := by
  have hp : isPrefixB (str "git find") c = false := by
    cases hc : isPrefixB (str "git find") c with
    | false => rfl
    | true =>
        have : isInfixB (str "git find") c = true :=
          isInfixB_iff.mpr (isPrefixB_iff.mp hc).isInfix
        rw [this] at h
        cases h
  unfold fix5
  rw [hp]
  simp only [Bool.false_eq_true, if_false]
  exact replaceAllGo_eq_self h

theorem attemptCommandFix_eq_trim (c : GoStr)
    (h1 : countChar ')' c = 0) (h2 : countChar sqC c = 0) (h3 : countChar dqC c = 0)
    (h4 : isInfixB (str "-name") c = false) (h5 : isInfixB (str "git find") c = false) :
    attemptCommandFix c = goTrimSpace c := by
  unfold attemptCommandFix
  rw [fix1_eq_self h4, fix2_eq_self h4, fix3_eq_trim h1,
      fixUnmatchedQuotes_eq_self (countChar_trim_zero h2) (countChar_trim_zero h3),
      fix5_eq_self (isInfixB_trim_false h5)]

/-- C8 amended.  The repair pass is idempotent on every command that
contains none of its repair triggers — no `)`, no single or double quote,
and neither `-name` nor `git find` as a substring: on such commands a
single application only trims the surrounding white space, so a second
application changes nothing.  (In general the pass is not idempotent: per
the counterexample, a second application strips one more trailing
parenthesis layer.) -/
theorem attemptCommandFix_idempotent_trigger_free (c : GoStr)
    (h1 : countChar ')' c = 0) (h2 : countChar sqC c = 0) (h3 : countChar dqC c = 0)
    (h4 : isInfixB (str "-name") c = false) (h5 : isInfixB (str "git find") c = false) :
    attemptCommandFix c = goTrimSpace c ∧
    attemptCommandFix (attemptCommandFix c) = attemptCommandFix c := by
  have hc := attemptCommandFix_eq_trim c h1 h2 h3 h4 h5
  refine ⟨hc, ?_⟩
  rw [hc, attemptCommandFix_eq_trim (goTrimSpace c)
        (countChar_trim_zero h1) (countChar_trim_zero h2) (countChar_trim_zero h3)
        (isInfixB_trim_false h4) (isInfixB_trim_false h5)]
  exact goTrimSpace_idem c

/-- Witness for the amended C8 at ` du -sh` (a trigger-free command that
is not a fixed point: one application trims the leading space, a second
changes nothing). -/
theorem attemptCommandFix_trigger_free_witness :
    countChar ')' (str " du -sh") = 0 ∧ countChar sqC (str " du -sh") = 0 ∧
    countChar dqC (str " du -sh") = 0 ∧
    isInfixB (str "-name") (str " du -sh") = false ∧
    isInfixB (str "git find") (str " du -sh") = false ∧
    (attemptCommandFix (str " du -sh") = goTrimSpace (str " du -sh") ∧
     attemptCommandFix (attemptCommandFix (str " du -sh"))
       = attemptCommandFix (str " du -sh")) :=
  ⟨by decide, by decide, by decide, by decide, by decide,
   attemptCommandFix_idempotent_trigger_free _ (by decide) (by decide) (by decide)
     (by decide) (by decide)⟩

/-! ## C3: the sandbox path check only covers dangerous operations -/

/-- C3 counterexample.  In `CurrentDir` mode with allowed directory
`/home/alice/proj`, the command `ls ..` passes `ValidateCommand`, yet the
sandbox's own file-argument extractor yields the argument `..`, which
resolves to `/home/alice` — outside the allowed directory.  The
containment property therefore fails for commands without a
dangerous-operation substring. -/
theorem sandboxValidateCommand_passes_ls_dotdot :
    (sandboxValidateCommand cexSandbox (str "ls ..")).1 = true ∧
    extractFileArguments (goToLower (str "ls ..")) = [str ".."] ∧
    isOutsideSandbox cexSandbox (str "..") = true := by
  refine ⟨?_, ?_, ?_⟩ <;> decide

/-- C3 amended.  For every command that passes `ValidateCommand` in
`CurrentDir` mode **and contains one of the dangerous-operation
substrings** (`rm -rf`, `chmod`, `chown`, `mv `, `cp `, `dd `, `format`,
`mkfs`, `fdisk`), every path argument extracted by the sandbox's own
file-argument extractor resolves within or under the allowed directory;
commands without such a substring are not path-checked at all. -/
theorem sandboxValidate_dangerous_args_inside (ds : DirectorySandbox) (cmd : GoStr)
    (hmode : ds.mode = SandboxMode.currentDir)
    (hpass : (sandboxValidateCommand ds cmd).1 = true)
    (hdang : containsAny (goToLower cmd) sandboxDangerousCommands = true) :
    (extractFileArguments (goToLower cmd)).all (fun a => !(isOutsideSandbox ds a)) = true := by
  unfold sandboxValidateCommand at hpass
  rw [hmode] at hpass
  simp only [reduceCtorEq, if_false] at hpass
  by_cases h1 : containsAbsolutePathTraversal (goToLower cmd) = true
  · simp [h1] at hpass
  · rw [Bool.not_eq_true] at h1
    rw [h1] at hpass
    simp only [Bool.false_eq_true, if_false] at hpass
    by_cases h2 : containsDirectoryEscape (goToLower cmd) = true
    · simp [h2] at hpass
    · rw [Bool.not_eq_true] at h2
      rw [h2] at hpass
      simp only [Bool.false_eq_true, if_false] at hpass
      by_cases h3 : containsDangerousExternalOperations ds (goToLower cmd) = true
      · simp [h3] at hpass
      · rw [Bool.not_eq_true] at h3
        unfold containsDangerousExternalOperations at h3
        rw [hdang, Bool.true_and] at h3
        unfold operatesOutsideCurrentDir at h3
        rw [List.any_eq_false] at h3
        rw [List.all_eq_true]
        intro a ha
        rw [Bool.not_eq_true']
        simpa using h3 a ha

/-- Witness for the amended C3 at `rm -rf subdir`. -/
theorem sandboxValidate_dangerous_args_inside_witness :
    cexSandbox.mode = SandboxMode.currentDir ∧
    (sandboxValidateCommand cexSandbox (str "rm -rf subdir")).1 = true ∧
    containsAny (goToLower (str "rm -rf subdir")) sandboxDangerousCommands = true ∧
    (extractFileArguments (goToLower (str "rm -rf subdir"))).all
      (fun a => !(isOutsideSandbox cexSandbox a)) = true :=
  ⟨rfl, by decide, by decide,
   sandboxValidate_dangerous_args_inside _ _ rfl (by decide) (by decide)⟩

/-! ## C7: `GetCommandInfo` and empty descriptions -/

theorem mergeStep_description (command : GoStr) (info : CommandInfo) (d : VDoc) :
    (mergeStep command info d).description =
      if (decide (d.command = command) && decide (d.sectionTag = str "command")) = true
      then d.description else info.description := by
  unfold mergeStep
  split_ifs <;> simp_all

theorem foldl_mergeStep_description (command : GoStr) :
    ∀ (docs : List VDoc) (info : CommandInfo),
      (docs.foldl (mergeStep command) info).description =
        (match docs.reverse.find? (fun d => decide (d.command = command) &&
            decide (d.sectionTag = str "command")) with
         | some d => d.description
         | none => info.description)
  | [], _ => rfl
  | d :: rest, info => by
      rw [List.foldl_cons, foldl_mergeStep_description command rest, List.reverse_cons,
          List.find?_append]
      cases hf : rest.reverse.find? (fun x => decide (x.command = command) &&
          decide (x.sectionTag = str "command")) with
      | some e => simp
      | none =>
          simp only [Option.none_or]
          cases hp : (decide (d.command = command) && decide (d.sectionTag = str "command")) with
          | true => simp [List.find?_cons, hp, mergeStep_description]
          | false => simp [List.find?_cons, hp, mergeStep_description]

/-- C7.  On an initialized store, `GetCommandInfo` returns the not-found
failure exactly when the merged description (that of the last
`command`-section document of the command) is empty, and a successful
return never carries an empty description. -/
theorem getCommandInfo_description_invariant (vs : VectorStoreM) (command : GoStr)
    (hinit : vs.initialized = true) :
    (GetCommandInfo vs command = .error (.notFound command) ↔
       mergedDescription vs command = []) ∧
    (∀ info, GetCommandInfo vs command = .ok info → info.description ≠ []) := by
  have hdesc : (vs.documents.foldl (mergeStep command) ⟨command, [], [], [], []⟩).description
      = mergedDescription vs command := by
    rw [foldl_mergeStep_description]
    unfold mergedDescription
    cases vs.documents.reverse.find? (fun d => decide (d.command = command) &&
        decide (d.sectionTag = str "command")) <;> rfl
  unfold GetCommandInfo
  rw [hinit]
  simp only [Bool.true_eq_false, if_false]
  by_cases hd : (vs.documents.foldl (mergeStep command) ⟨command, [], [], [], []⟩).description = []
  · rw [← hdesc]
    simp [hd]
  · rw [← hdesc]
    constructor
    · simp [hd]
    · intro info hok
      simp only [hd, if_neg, if_false] at hok
      cases hok
      exact hd

/-- Witness for C7 on a concrete initialized store. -/
theorem getCommandInfo_description_witness :
    demoStore.initialized = true ∧
    ((GetCommandInfo demoStore (str "pwd") = .error (.notFound (str "pwd")) ↔
        mergedDescription demoStore (str "pwd") = []) ∧
     (∀ info, GetCommandInfo demoStore (str "pwd") = .ok info → info.description ≠ [])) :=
  ⟨rfl, getCommandInfo_description_invariant _ _ rfl⟩

/-! ## C10: an uninitialized store always errors -/

/-- C10.  When the store is not initialized, `Search` and
`GetCommandInfo` return the not-initialized error for every query,
command, limit and iteration order — never an empty successful result. -/
theorem uninitialized_store_errors (vs : VectorStoreM) (logf : Frac → Frac)
    (query cmd : GoStr) (limit : Nat) (order : List GoStr)
    (h : vs.initialized = false) :
    storeSearch vs logf query limit order = .error .notInitialized ∧
    GetCommandInfo vs cmd = .error .notInitialized := by
  constructor <;> simp [storeSearch, GetCommandInfo, h]

/-- Witness for C10 on a concrete uninitialized store. -/
theorem uninitialized_store_errors_witness :
    uninitStore.initialized = false ∧
    (storeSearch uninitStore logfZero (str "list files") 5 [str "pwd-command"]
        = .error .notInitialized ∧
     GetCommandInfo uninitStore (str "pwd") = .error .notInitialized) :=
  ⟨rfl, uninitialized_store_errors _ _ _ _ _ _ rfl⟩

/-! ## C6: ranking is score-deterministic but tie order is not -/

/-- C6 counterexample.  On a store holding two documents of the command
`ls` with identical content, the query `ls` gives both documents the same
score, and two valid map-iteration orders of the same store contents
yield different result lists: the ranking is not independent of Go's
randomized map-iteration order, so ties are not broken by insertion
order. -/
theorem search_tie_order_dependent :
    validOrder tieStore tieOrder1 = true ∧
    validOrder tieStore tieOrder2 = true ∧
    storeSearch tieStore logfZero (str "ls") 5 tieOrder1
      = .ok (searchResults tieStore logfZero (str "ls") 5 tieOrder1) ∧
    searchResults tieStore logfZero (str "ls") 5 tieOrder1 ≠
      searchResults tieStore logfZero (str "ls") 5 tieOrder2 := by
  refine ⟨?_, ?_, ?_, ?_⟩ <;> first | rfl | decide

theorem sortedDescB_of_sorted :
    ∀ {l : List (VDoc × Frac)}, List.Sorted resLE l → sortedDescB l = true
  | [], _ => rfl
  | [_], _ => rfl
  | a :: b :: t, h => by
      rw [List.sorted_cons] at h
      have hab : resLE a b := h.1 b (List.mem_cons_self b t)
      rw [show sortedDescB (a :: b :: t)
            = (decide (Frac.le b.2 a.2) && sortedDescB (b :: t)) from rfl]
      rw [Bool.and_eq_true]
      exact ⟨decide_eq_true hab, sortedDescB_of_sorted h.2⟩

theorem mem_searchResults {vs : VectorStoreM} {logf : Frac → Frac} {query : GoStr}
    {limit : Nat} {order : List GoStr} {r : VDoc × Frac}
    (h : r ∈ searchResults vs logf query limit order) :
    Frac.lt fracTenth r.2 ∧ r.2 = computeScore vs logf query r.1 := by
  unfold searchResults at h
  have h1 := List.mem_of_mem_take h
  have h2 := (List.perm_insertionSort resLE _).mem_iff.mp h1
  rw [List.mem_filterMap] at h2
  obtain ⟨id, _, heq⟩ := h2
  split at heq
  · next d _ =>
      rw [show (let s := computeScore vs logf query d;
            if Frac.lt fracTenth s then some (d, s) else none)
          = (if Frac.lt fracTenth (computeScore vs logf query d)
             then some (d, computeScore vs logf query d) else none) from rfl] at heq
      split at heq
      · next hlt =>
          cases heq
          exact ⟨hlt, rfl⟩
      · cases heq
  · cases heq

/-- C6 amended.  For every store, query, limit and map-iteration order,
the `Search` result list is sorted by score descending, contains only
entries whose score exceeds the 0.1 threshold, assigns every returned
document exactly the deterministic score `computeScore` (a function of
the store contents and the query alone), and has at most `limit`
entries.  Only the relative order of equal-score entries depends on the
iteration order. -/
theorem search_sorted_filtered_truncated (vs : VectorStoreM) (logf : Frac → Frac)
    (query : GoStr) (limit : Nat) (order : List GoStr) :
    sortedDescB (searchResults vs logf query limit order) = true ∧
    (searchResults vs logf query limit order).all
      (fun r => decide (Frac.lt fracTenth r.2) &&
                decide (r.2 = computeScore vs logf query r.1)) = true ∧
    (searchResults vs logf query limit order).length ≤ limit := by
  refine ⟨?_, ?_, ?_⟩
  · apply sortedDescB_of_sorted
    unfold searchResults
    exact List.Pairwise.sublist (List.take_sublist _ _) (List.sorted_insertionSort resLE _)
  · rw [List.all_eq_true]
    intro r hr
    obtain ⟨hlt, hsc⟩ := mem_searchResults hr
    rw [Bool.and_eq_true]
    exact ⟨decide_eq_true hlt, decide_eq_true hsc⟩
  · unfold searchResults
    exact List.length_take_le _ _

/-! ## C5: enrichment block count and per-block truncation -/

set_option maxRecDepth 8000 in
/-- C5 counterexample.  With four commands in the store and the query
`tar grep sort uniq`, every query word is an exact-match command, so the
retrieval returns four commands and the enriched prompt contains four
numbered `COMMAND` blocks — more than the claimed bound of 3.  (The
3-command cap applies only to the similarity-search results; exact
matches are prepended on top of it.) -/
theorem enhancePrompt_four_blocks :
    (ragRetrieve fourRag logfZero fourQuery fourOrd1 fourOrd2).commands.length = 4 ∧
    countOcc (str "COMMAND ")
      (EnhancePrompt fourRag logfZero fourQuery (str "please help") fourOrd1 fourOrd2) = 4 := by
  refine ⟨?_, ?_⟩ <;> rfl

theorem grcLoop_length_le (vs : VectorStoreM) (maxResults : Nat) :
    ∀ (iter : List GoStr) (acc : List CommandInfo),
      acc.length < maxResults → (grcLoop vs maxResults iter acc).length ≤ maxResults
  | [], _, h => le_of_lt h
  | c :: rest, acc, h => by
      simp only [grcLoop]
      cases hg : GetCommandInfo vs c with
      | ok info =>
          simp only [hg]
          split
          · next h2 => simp only [List.length_append, List.length_cons, List.length_nil]; omega
          · next h2 =>
              refine grcLoop_length_le vs maxResults rest _ ?_
              omega
      | error e =>
          simp only [hg]
          split
          · next h2 => omega
          · next h2 => exact grcLoop_length_le vs maxResults rest _ h

theorem dedupByName_length_le :
    ∀ (l : List CommandInfo) (seen : List GoStr),
      (dedupByName l seen).length ≤ l.length
  | [], _ => le_refl _
  | c :: rest, seen => by
      unfold dedupByName
      split
      · exact le_trans (dedupByName_length_le rest seen) (by simp)
      · simpa using dedupByName_length_le rest (c.name :: seen)

/-- C5 amended.  The number of retrieved commands (one prompt block is
emitted per retrieved command) is bounded by the number of potential
exact-match words extracted from the query plus 3 — not by 3 alone — and
each block lists at most the first 5 options and the first 2 examples of
its command. -/
theorem retrieve_block_bound (rs : RagModel) (logf : Frac → Frac)
    (query : GoStr) (ord1 ord2 : List GoStr) :
    (ragRetrieve rs logf query ord1 ord2).commands.length ≤
      (extractPotentialCommands query).length + 3 ∧
    (∀ c : CommandInfo,
      (blockOptionsShown c).length ≤ 5 ∧ blockOptionsShown c <+: c.options ∧
      (blockExamplesShown c).length ≤ 2 ∧ blockExamplesShown c <+: c.examples) := by
  constructor
  · unfold ragRetrieve
    split
    · simp
    · cases hg : GetRelevantCommands rs.store logf query 3 ord1 ord2 with
      | error e => simp [hg, RetrievalResultM.commands]
      | ok relevant =>
          simp only [hg]
          unfold combineResults
          have h1 : (dedupByName
              ((extractPotentialCommands query).filterMap
                  (fun c => (GetCommandInfo rs.store c).toOption) ++
                relevant.filter (fun c => isRelevantCommand query c)) []).length ≤
              ((extractPotentialCommands query).filterMap
                  (fun c => (GetCommandInfo rs.store c).toOption)).length +
                (relevant.filter (fun c => isRelevantCommand query c)).length := by
            refine le_trans (dedupByName_length_le _ _) ?_
            simp [List.length_append]
          have h2 : ((extractPotentialCommands query).filterMap
              (fun c => (GetCommandInfo rs.store c).toOption)).length ≤
              (extractPotentialCommands query).length := List.length_filterMap_le _ _
          have h3 : (relevant.filter (fun c => isRelevantCommand query c)).length ≤
              relevant.length := List.length_filter_le _ _
          have h4 : relevant.length ≤ 3 := by
            unfold GetRelevantCommands at hg
            cases hs : storeSearch rs.store logf query (3 * 2) ord1 with
            | error e => rw [hs] at hg; cases hg
            | ok docs =>
                rw [hs] at hg
                cases hg
                exact grcLoop_length_le _ _ _ _ (by simp)
          simp only [RetrievalResultM.commands]
          omega
  · intro c
    refine ⟨?_, ?_, ?_, ?_⟩
    · unfold blockOptionsShown
      split
      · simp [List.length_take]
      · next h2 => omega
    · unfold blockOptionsShown
      split
      · exact List.take_prefix _ _
      · exact List.prefix_refl _
    · unfold blockExamplesShown
      split
      · simp [List.length_take]
      · next h2 => omega
    · unfold blockExamplesShown
      split
      · exact List.take_prefix _ _
      · exact List.prefix_refl _
